import Mathlib

/-!
Verification of the `requester` crate (`src/lib.rs`): a filtered broadcast
dispatcher.  The dispatcher loop spawned by `Requester::new` is embedded as a
deterministic step function `cycle` over an explicit state `DispState`; all
interaction with the outside world (newly arrived subscriptions, the sampled
monotonic clock, the result of the non-blocking receive on the source, which
delivery channels have been dropped by their consumers) is supplied through a
per-cycle environment record `CycleInput`.  Channels are identified by natural
number ids; a send to a channel succeeds exactly when its receiving half is
still alive, matching `std::sync::mpsc` semantics.  `u64` arithmetic is
modelled on `Nat` with an explicit `% 2 ^ 64`.
-/

namespace Requester

/-- Result of a non-blocking `try_recv` on an mpsc channel
(`Ok` / `Err(Empty)` / `Err(Disconnected)`), from `std::sync::mpsc`. -/
inductive TryRecv (T : Type) where
  | ok (v : T)
  | empty
  | disconnected
deriving DecidableEq

/-- An entry of the no-timeout registry: `(FilterFn<T>, Sender<T>)`.
The `Sender<T>` is identified by the numeric id of its channel. -/
structure Sub (T : Type) where
  filter : T → Bool
  sender : Nat

/-- An entry of the timeout registry: `(u64, FilterFn<T>, Sender<T>)`,
the `u64` being the absolute deadline in milliseconds. -/
structure TimedSub (T : Type) where
  deadline : Nat
  filter : T → Bool
  sender : Nat

/-- The mutable state owned by the dispatcher thread spawned in
`Requester::new`: the two registries `without_timeouts` and `with_timeouts`,
the forwarding capability `forward_s : Option<Sender<T>>` (modelled by the
Bool `forward_s = isSome`), and the latched `no_more_subscribers` flag. -/
structure DispState (T : Type) where
  without_timeouts : List (Sub T)
  with_timeouts : List (TimedSub T)
  forward_s : Bool
  no_more_subscribers : Bool

/-- The environment observed by one iteration of the dispatcher loop:
the subscriptions drained from the two registration queues (with flags for
whether each queue reported `Disconnected` after draining), the clock sample
`precise_time_ms()`, the outcome of `source.try_recv()`, which delivery
receivers have been dropped by their consumers (a send to id `n` fails iff
`receiverClosed n`), and whether the forward receiver has been dropped. -/
structure CycleInput (T : Type) where
  ntArrivals : List (Sub T)
  ntDisconnected : Bool
  tArrivals : List (TimedSub T)
  tDisconnected : Bool
  current : Nat
  sourceEvent : TryRecv T
  receiverClosed : Nat → Bool
  forwardClosed : Bool

/-- Observable effects of one iteration of the dispatcher loop: the
`(channel id, value)` sends performed during fan-out in the order the code
performs them, the item consumed from the source (if any), the item sent to
the forward channel (if any), and whether the loop `return`ed. -/
structure CycleOutput (T : Type) where
  delivered : List (Nat × T)
  consumed : Option T
  forwarded : Option T
  terminated : Bool

variable {T : Type}

/-- Steps 1 of the loop body: drain both registration queues
(`nt_r.try_recv()` / `t_r.try_recv()` loops), appending arrivals to the
registries and latching `no_more_subscribers` on `Disconnected`. -/
def drainArrivals (st : DispState T) (inp : CycleInput T) : DispState T :=
  { st with
    without_timeouts := st.without_timeouts ++ inp.ntArrivals,
    with_timeouts := st.with_timeouts ++ inp.tArrivals,
    no_more_subscribers :=
      st.no_more_subscribers || inp.ntDisconnected || inp.tDisconnected }

/-- Step 2 of the loop body: `with_timeouts.retain(|&(deadline, _, _)| deadline >= current)`. -/
def evictExpired (current : Nat) (subs : List (TimedSub T)) : List (TimedSub T) :=
  subs.filter (fun s => decide (current ≤ s.deadline))

/-- State after draining arrivals and evicting expired timed subscriptions. -/
def afterEvict (st : DispState T) (inp : CycleInput T) : DispState T :=
  let st1 := drainArrivals st inp
  { st1 with with_timeouts := evictExpired inp.current st1.with_timeouts }

/-- Subscriptions retained by one `retain` pass of the fan-out (used for both
registries): a subscription whose filter accepts the value is kept iff the
send to its channel succeeds; one whose filter rejects it is kept
unconditionally. -/
def fanOutKeep {σ : Type} (closed : Nat → Bool) (v : T)
    (filterOf : σ → T → Bool) (senderOf : σ → Nat) : List σ → List σ
  | [] => []
  | s :: rest =>
    if filterOf s v then
      if closed (senderOf s) then fanOutKeep closed v filterOf senderOf rest
      else s :: fanOutKeep closed v filterOf senderOf rest
    else s :: fanOutKeep closed v filterOf senderOf rest

/-- Successful sends performed by the same `retain` pass, in order: one
`(channel id, value)` pair for every subscription whose filter accepts the
value and whose channel is still open. -/
def fanOutSends {σ : Type} (closed : Nat → Bool) (v : T)
    (filterOf : σ → T → Bool) (senderOf : σ → Nat) : List σ → List (Nat × T)
  | [] => []
  | s :: rest =>
    if filterOf s v then
      if closed (senderOf s) then fanOutSends closed v filterOf senderOf rest
      else (senderOf s, v) :: fanOutSends closed v filterOf senderOf rest
    else fanOutSends closed v filterOf senderOf rest

/-- The forwarding step: `forward_s = if let Some(forward) = forward_s {
if forward.send(value).is_err() { None } else { Some(forward) } } else { None }`.
Returns the new capability flag and the forwarded item, if any. -/
def forwardStep (forwardAlive : Bool) (forwardClosed : Bool) (v : T) :
    Bool × Option T :=
  if forwardAlive then
    if forwardClosed then (false, none) else (true, some v)
  else (false, none)

/-- The `Ok(value)` branch of the source match: fan the value out to the
no-timeout registry, then the timeout registry, then forward it; compute the
idle-termination check on the resulting state. -/
def fanOutPhase (st : DispState T) (inp : CycleInput T) (v : T) :
    CycleOutput T × DispState T :=
  let ntKeep := fanOutKeep inp.receiverClosed v Sub.filter Sub.sender st.without_timeouts
  let ntSent := fanOutSends inp.receiverClosed v Sub.filter Sub.sender st.without_timeouts
  let ttKeep := fanOutKeep inp.receiverClosed v TimedSub.filter TimedSub.sender st.with_timeouts
  let ttSent := fanOutSends inp.receiverClosed v TimedSub.filter TimedSub.sender st.with_timeouts
  let fwd := forwardStep st.forward_s inp.forwardClosed v
  let st' : DispState T := ⟨ntKeep, ttKeep, fwd.1, st.no_more_subscribers⟩
  (⟨ntSent ++ ttSent, some v, fwd.2,
    st.no_more_subscribers && ntKeep.isEmpty && ttKeep.isEmpty && !fwd.1⟩, st')

/-- One full iteration of the dispatcher loop body, in the order the code
executes it: drain arrivals, evict expired, match on `source.try_recv()`
(`Ok` → fan-out and forward, `Empty` → yield, `Disconnected` → `return`),
then the idle-termination check. -/
def cycle (st : DispState T) (inp : CycleInput T) : CycleOutput T × DispState T :=
  let st2 := afterEvict st inp
  match inp.sourceEvent with
  | .disconnected => (⟨[], none, none, true⟩, st2)
  | .empty =>
      (⟨[], none, none,
        st2.no_more_subscribers && st2.without_timeouts.isEmpty &&
          st2.with_timeouts.isEmpty && !st2.forward_s⟩, st2)
  | .ok v => fanOutPhase st2 inp v

/-- Run the dispatcher loop over a list of per-cycle environments, stopping
when an iteration `return`s; yields the trace of per-cycle effects. -/
def run (st : DispState T) : List (CycleInput T) → List (CycleOutput T)
  | [] => []
  | inp :: rest =>
    let c := cycle st inp
    if c.1.terminated then [c.1] else c.1 :: run c.2 rest

/-- The items sent to channel id `i` by a list of fan-out sends, in order. -/
def deliveriesTo (i : Nat) (l : List (Nat × T)) : List T :=
  l.filterMap (fun p => if p.1 == i then some p.2 else none)

/-- The items delivered to channel id `i` over a trace, in order. -/
def deliveredTo (i : Nat) : List (CycleOutput T) → List T
  | [] => []
  | o :: rest => deliveriesTo i o.delivered ++ deliveredTo i rest

/-- The items consumed from the source over a trace, in order. -/
def consumedOf : List (CycleOutput T) → List T
  | [] => []
  | o :: rest => o.consumed.toList ++ consumedOf rest

/-- The items sent to the forward channel over a trace, in order. -/
def forwardedOf : List (CycleOutput T) → List T
  | [] => []
  | o :: rest => o.forwarded.toList ++ forwardedOf rest

/-- The conjunction tested by the idle-termination check at the bottom of the
loop: `no_more_subscribers && without_timeouts.is_empty() &&
with_timeouts.is_empty() && forward_s.is_none()`. -/
def idleCond (st : DispState T) : Prop :=
  st.no_more_subscribers = true ∧ st.without_timeouts = [] ∧
    st.with_timeouts = [] ∧ st.forward_s = false

/-- A send on an unbounded mpsc channel: succeeds (appending the message to
the queue) iff the receiving half is still alive, else returns `none`
(`SendError`). -/
def mpscSend {α : Type} (receiverAlive : Bool) (queue : List α) (msg : α) :
    Option (List α) :=
  if receiverAlive then some (queue ++ [msg]) else none

/-- `Requester::request`: `self.subscribe_no_timeout.send((boxed, sx)).unwrap(); rx`.
`dispatcherAlive` is whether the spawned loop (owner of the queue's receiving
half) is still running; `sx`/`rx` are the two ids of the fresh channel.
A `none` result models the panic of `.unwrap()` on a failed send. -/
def request (dispatcherAlive : Bool) (queue : List ((T → Bool) × Nat))
    (predicate : T → Bool) (sx rx : Nat) :
    Option (List ((T → Bool) × Nat) × Nat) :=
  match mpscSend dispatcherAlive queue (predicate, sx) with
  | some q => some (q, rx)
  | none => none

/-- The deadline computed by `Requester::request_timeout`:
`precise_time_ms() + timeout_ms` over `u64` (wrapping semantics made
explicit with `% 2 ^ 64`). -/
def requestTimeoutDeadline (now timeout_ms : Nat) : Nat :=
  (now + timeout_ms) % 2 ^ 64

/-- `Requester::request_timeout`: compute the deadline at call time, then
`self.subscribe_timeout.send((deadline, boxed, sx)).unwrap(); rx`. -/
def request_timeout (dispatcherAlive : Bool) (now timeout_ms : Nat)
    (queue : List (Nat × (T → Bool) × Nat)) (predicate : T → Bool)
    (sx rx : Nat) : Option (List (Nat × (T → Bool) × Nat) × Nat) :=
  match mpscSend dispatcherAlive queue
      (requestTimeoutDeadline now timeout_ms, predicate, sx) with
  | some q => some (q, rx)
  | none => none

/-- The predicate `is_even` from the spec's concrete scenario, used as a
sample filter in concrete instances. -/
def evenFilter : Nat → Bool := fun v => v % 2 == 0

/-- A filter accepting every item, used in concrete instances. -/
def anyFilter : Nat → Bool := fun _ => true

/-- Whether a source event is an item accepted by the filter `P`. -/
def matchesEvent (P : T → Bool) : TryRecv T → Bool
  | TryRecv.ok v => P v
  | TryRecv.empty => false
  | TryRecv.disconnected => false

/-- Channel id `i` has no subscription in either registry. -/
def noSubFor (i : Nat) (st : DispState T) : Prop :=
  st.without_timeouts.filter (fun s => s.sender == i) = [] ∧
  st.with_timeouts.filter (fun s => s.sender == i) = []

/-- The arriving registrations of a cycle carry no subscription for id `i`. -/
def arrivalsFreeOf (i : Nat) (inp : CycleInput T) : Prop :=
  inp.ntArrivals.filter (fun s => s.sender == i) = [] ∧
  inp.tArrivals.filter (fun s => s.sender == i) = []

/-- Channel id `i` carries exactly one subscription, with predicate `P`, in
the no-timeout registry, and none in the timeout registry. -/
def ntOnly (i : Nat) (P : T → Bool) (st : DispState T) : Prop :=
  st.without_timeouts.filter (fun s => s.sender == i) = [⟨P, i⟩] ∧
  st.with_timeouts.filter (fun s => s.sender == i) = []

/-- Channel id `i` carries exactly one subscription, with deadline `d` and
predicate `P`, in the timeout registry, and none in the no-timeout one. -/
def tOnly (i d : Nat) (P : T → Bool) (st : DispState T) : Prop :=
  st.with_timeouts.filter (fun s => s.sender == i) = [⟨d, P, i⟩] ∧
  st.without_timeouts.filter (fun s => s.sender == i) = []

/-- Dispatcher state right after construction: both registries empty, the
forwarding capability alive, `no_more_subscribers` not yet latched. -/
def freshState (T : Type) : DispState T := ⟨[], [], true, false⟩

/-- State once every Requester handle has been dropped and observed
(`no_more_subscribers` latched), both registries are empty, and the
forwarding capability is still held (no forward send has failed yet). -/
def orphanIdleState (T : Type) : DispState T := ⟨[], [], true, true⟩

/-- A cycle in which nothing arrives, the source is open but empty, and the
forward receiver has been dropped. -/
def idleDroppedInput (T : Type) : CycleInput T :=
  ⟨[], false, [], false, 0, TryRecv.empty, fun _ => false, true⟩

/-- A cycle in which the source yields `v` while the forward receiver has
been dropped. -/
def itemDroppedInput (v : T) : CycleInput T :=
  ⟨[], false, [], false, 0, TryRecv.ok v, fun _ => false, true⟩

/-- A cycle in which the source reports `Disconnected`. -/
def discInput (T : Type) : CycleInput T :=
  ⟨[], false, [], false, 0, TryRecv.disconnected, fun _ => false, false⟩

/-- A cycle delivering source item `v` with everything else quiescent. -/
def plainInput (v : Nat) : CycleInput Nat :=
  ⟨[], false, [], false, 0, TryRecv.ok v, fun _ => false, false⟩

/-- Concrete state for the spec's scenario: subscriber 1 with `is_even` is
already registered, no timed subscriber. -/
def c1State : DispState Nat := ⟨[⟨evenFilter, 1⟩], [], true, false⟩

/-- The spec's scenario source: integers 1..5. -/
def c1Inputs : List (CycleInput Nat) :=
  [plainInput 1, plainInput 2, plainInput 3, plainInput 4, plainInput 5]

/-- A cycle in which subscriber 1 (accept-all) arrives while item 3 is
pulled. -/
def subArrivalInput : CycleInput Nat :=
  ⟨[⟨anyFilter, 1⟩], false, [], false, 0, TryRecv.ok 3, fun _ => false, false⟩

/-- Inputs for the late-registration scenario: items 1 and 2 are fanned out
before subscriber 1's registration is drained on the third cycle. -/
def c7Inputs : List (CycleInput Nat) :=
  [plainInput 1, plainInput 2, subArrivalInput, plainInput 4]

/-- State holding one timed subscription: id 2, deadline 5, filter
`is_even`. -/
def c6State : DispState Nat := ⟨[], [⟨5, evenFilter, 2⟩], true, false⟩

/-- A cycle at clock `c` pulling item `v`. -/
def clockedInput (c v : Nat) : CycleInput Nat :=
  ⟨[], false, [], false, c, TryRecv.ok v, fun _ => false, false⟩

/-- Inputs where the deadline 5 passes (clock 6) before the first
`is_even` match (item 2) arrives. -/
def c6Inputs : List (CycleInput Nat) :=
  [clockedInput 3 1, clockedInput 6 2, clockedInput 7 4]

/-- State holding the timed subscription created by
`request_timeout(0, ...)` called at time 100: id 7, accept-all filter. -/
def c4State : DispState Nat :=
  ⟨[], [⟨requestTimeoutDeadline 100 0, anyFilter, 7⟩], true, false⟩

/-- A cycle whose clock sample is still 100 (the registration millisecond)
when item 42 arrives. -/
def sameMsInput : CycleInput Nat :=
  ⟨[], false, [], false, 100, TryRecv.ok 42, fun _ => false, false⟩

/-- A cycle pulling item `v` with the forward receiver dropped iff `fc`. -/
def fwdInput (v : Nat) (fc : Bool) : CycleInput Nat :=
  ⟨[], false, [], false, 0, TryRecv.ok v, fun _ => false, fc⟩

/-- Inputs where the forward receiver is dropped before the third item. -/
def c8Inputs : List (CycleInput Nat) :=
  [fwdInput 10 false, fwdInput 20 false, fwdInput 30 true]

end Requester

namespace Requester

variable {T : Type}

/-- C5: on each cycle the dispatcher samples the clock once and evicts a
timed subscription on that cycle iff its deadline is strictly before the
sampled time; a subscription whose deadline equals the sample is retained
(`retain(|&(deadline, _, _)| deadline >= current)` keeps `deadline = current`). -/
theorem C5_eviction_is_strict (current : Nat) (subs : List (TimedSub T))
    (s : TimedSub T) :
    s ∈ evictExpired current subs ↔ s ∈ subs ∧ current ≤ s.deadline := by
  simp [evictExpired, List.mem_filter]

/-- C10: `request_timeout` computes `precise_time_ms() + timeout_ms` over
`u64` with no overflow guard; whenever the mathematical sum reaches `2 ^ 64`
the wrapped deadline lies strictly in the past (below `now`), so the
subscription fails the `deadline >= current` retention test on every cycle
whose sampled time is at least `now` and is evicted on the first such cycle
without receiving any item, instead of being registered far in the future. -/
theorem C10_deadline_overflow_wraps (T : Type) (now timeout_ms : Nat)
    (h1 : now < 2 ^ 64) (h2 : timeout_ms < 2 ^ 64)
    (h3 : 2 ^ 64 ≤ now + timeout_ms) :
    requestTimeoutDeadline now timeout_ms < now ∧
    ∀ current : Nat, now ≤ current →
      ∀ (P : T → Bool) (i : Nat) (reg : List (TimedSub T)),
        (⟨requestTimeoutDeadline now timeout_ms, P, i⟩ : TimedSub T) ∉
          evictExpired current reg := by
  have hlt : now + timeout_ms - 2 ^ 64 < 2 ^ 64 := by omega
  have hval : requestTimeoutDeadline now timeout_ms = now + timeout_ms - 2 ^ 64 := by
    unfold requestTimeoutDeadline
    rw [Nat.mod_eq_sub_mod h3, Nat.mod_eq_of_lt hlt]
  have hpast : requestTimeoutDeadline now timeout_ms < now := by omega
  refine ⟨hpast, ?_⟩
  intro current hcur P i reg hmem
  have := (List.mem_filter.mp hmem).2
  have : current ≤ requestTimeoutDeadline now timeout_ms := by
    simpa using this
  omega

/-- Witness for C10 at `now = timeout_ms = 2 ^ 63`: the deadline wraps to a
value below `now` and that subscription is dropped by the eviction pass. -/
theorem C10_deadline_overflow_wraps_witness :
    requestTimeoutDeadline (2 ^ 63) (2 ^ 63) < 2 ^ 63 ∧
    (⟨requestTimeoutDeadline (2 ^ 63) (2 ^ 63), evenFilter, 3⟩ : TimedSub Nat) ∉
      evictExpired (2 ^ 63)
        [⟨requestTimeoutDeadline (2 ^ 63) (2 ^ 63), evenFilter, 3⟩] :=
  ⟨(C10_deadline_overflow_wraps Nat (2 ^ 63) (2 ^ 63) (by norm_num) (by norm_num)
      (by norm_num)).1,
   (C10_deadline_overflow_wraps Nat (2 ^ 63) (2 ^ 63) (by norm_num) (by norm_num)
      (by norm_num)).2 (2 ^ 63) (le_refl _) evenFilter 3 _⟩

/-- C2 counterexample: when the dispatcher loop has already exited (the
receiving half of the registration queue is dropped), `request` does not
return a Receiver — the internal `send(..).unwrap()` panics, modelled by the
`none` result.  This refutes "never crashes ... even when the dispatcher loop
has already exited". -/
theorem C2_request_counterexample :
    request false [] evenFilter 0 1 = none := rfl

/-- C2 amended: `request` and `request_timeout` never block — they perform a
single queue send and return.  While the dispatcher loop is running the send
succeeds and the consumer-side Receiver is returned immediately; but when the
dispatcher loop has already exited, the send fails and the `.unwrap()`
panics (result `none`) instead of returning a dead Receiver. -/
theorem C2_amended_request_returns_or_panics (T : Type) (alive : Bool)
    (q1 : List ((T → Bool) × Nat)) (q2 : List (Nat × (T → Bool) × Nat))
    (P : T → Bool) (now timeout_ms sx rx : Nat) :
    request alive q1 P sx rx =
      (if alive then some (q1 ++ [(P, sx)], rx) else none) ∧
    request_timeout alive now timeout_ms q2 P sx rx =
      (if alive then
        some (q2 ++ [(requestTimeoutDeadline now timeout_ms, P, sx)], rx)
      else none) := by
  cases alive <;> simp [request, request_timeout, mpscSend]

theorem deliveriesTo_cons (i : Nat) (p : Nat × T) (l : List (Nat × T)) :
    deliveriesTo i (p :: l) =
      (if p.1 == i then [p.2] else []) ++ deliveriesTo i l := by
  by_cases h : p.1 = i <;> simp [deliveriesTo, List.filterMap_cons, h]

theorem deliveriesTo_append (i : Nat) (l1 l2 : List (Nat × T)) :
    deliveriesTo i (l1 ++ l2) = deliveriesTo i l1 ++ deliveriesTo i l2 := by
  simp [deliveriesTo]

theorem cycle_disconnected (st : DispState T) (inp : CycleInput T)
    (h : inp.sourceEvent = TryRecv.disconnected) :
    cycle st inp = (⟨[], none, none, true⟩, afterEvict st inp) := by
  simp [cycle, h]

theorem cycle_empty (st : DispState T) (inp : CycleInput T)
    (h : inp.sourceEvent = TryRecv.empty) :
    cycle st inp =
      (⟨[], none, none,
        (afterEvict st inp).no_more_subscribers &&
          (afterEvict st inp).without_timeouts.isEmpty &&
          (afterEvict st inp).with_timeouts.isEmpty &&
          !(afterEvict st inp).forward_s⟩, afterEvict st inp) := by
  simp [cycle, h]

theorem cycle_ok (st : DispState T) (inp : CycleInput T) (v : T)
    (h : inp.sourceEvent = TryRecv.ok v) :
    cycle st inp = fanOutPhase (afterEvict st inp) inp v := by
  simp [cycle, h]

theorem afterEvict_forward (st : DispState T) (inp : CycleInput T) :
    (afterEvict st inp).forward_s = st.forward_s := rfl

theorem evictExpired_filter_sender (c i : Nat) (l : List (TimedSub T)) :
    (evictExpired c l).filter (fun s => s.sender == i) =
      (l.filter (fun s => s.sender == i)).filter
        (fun s => decide (c ≤ s.deadline)) := by
  induction l with
  | nil => rfl
  | cons s rest ih =>
    by_cases h1 : (s.sender == i) = true <;>
      by_cases h2 : c ≤ s.deadline <;>
        simp [evictExpired, List.filter_cons, h1, h2] at ih ⊢ <;>
          simpa [evictExpired] using ih

theorem fanOutKeep_absent {σ : Type} (closed : Nat → Bool) (v : T)
    (fo : σ → T → Bool) (so : σ → Nat) (i : Nat) (subs : List σ)
    (h : subs.filter (fun s => so s == i) = []) :
    (fanOutKeep closed v fo so subs).filter (fun s => so s == i) = [] := by
  induction subs with
  | nil => rfl
  | cons s rest ih =>
    rw [List.filter_cons] at h
    by_cases hs : (so s == i) = true
    · rw [if_pos hs] at h
      exact absurd h (List.cons_ne_nil _ _)
    · rw [if_neg hs] at h
      by_cases hf : fo s v = true
      · by_cases hc : closed (so s) = true
        · simp only [fanOutKeep, if_pos hf, if_pos hc]
          exact ih h
        · simp only [fanOutKeep, if_pos hf, if_neg hc, List.filter_cons,
            if_neg hs]
          exact ih h
      · simp only [fanOutKeep, if_neg hf, List.filter_cons, if_neg hs]
        exact ih h

theorem fanOutSends_absent {σ : Type} (closed : Nat → Bool) (v : T)
    (fo : σ → T → Bool) (so : σ → Nat) (i : Nat) (subs : List σ)
    (h : subs.filter (fun s => so s == i) = []) :
    deliveriesTo i (fanOutSends closed v fo so subs) = [] := by
  induction subs with
  | nil => rfl
  | cons s rest ih =>
    rw [List.filter_cons] at h
    by_cases hs : (so s == i) = true
    · rw [if_pos hs] at h
      exact absurd h (List.cons_ne_nil _ _)
    · rw [if_neg hs] at h
      by_cases hf : fo s v = true
      · by_cases hc : closed (so s) = true
        · simp only [fanOutSends, if_pos hf, if_pos hc]
          exact ih h
        · simp only [fanOutSends, if_pos hf, if_neg hc, deliveriesTo_cons]
          rw [ih h]
          simp only [Bool.not_eq_true] at hs
          simp [hs]
      · simp only [fanOutSends, if_neg hf]
        exact ih h

theorem fanOutSends_closed {σ : Type} (closed : Nat → Bool) (v : T)
    (fo : σ → T → Bool) (so : σ → Nat) (i : Nat) (subs : List σ)
    (hc : closed i = true) :
    deliveriesTo i (fanOutSends closed v fo so subs) = [] := by
  induction subs with
  | nil => rfl
  | cons s rest ih =>
    by_cases hf : fo s v = true
    · by_cases hcs : closed (so s) = true
      · simp only [fanOutSends, if_pos hf, if_pos hcs]
        exact ih
      · have hne : (so s == i) = false := by
          by_cases hx : so s = i
          · exact absurd (hx ▸ hc) hcs
          · simp [hx]
        simp only [fanOutSends, if_pos hf, if_neg hcs, deliveriesTo_cons]
        rw [ih]
        simp [hne]
    · simp only [fanOutSends, if_neg hf]
      exact ih

theorem fanOutKeep_single {σ : Type} (closed : Nat → Bool) (v : T)
    (fo : σ → T → Bool) (so : σ → Nat) (i : Nat) (s₀ : σ) (subs : List σ)
    (h : subs.filter (fun s => so s == i) = [s₀]) :
    (fanOutKeep closed v fo so subs).filter (fun s => so s == i) =
      if fo s₀ v = true ∧ closed (so s₀) = true then [] else [s₀] := by
  induction subs with
  | nil => exact absurd h (by simp)
  | cons s rest ih =>
    rw [List.filter_cons] at h
    by_cases hs : (so s == i) = true
    · rw [if_pos hs] at h
      obtain ⟨rfl, hrest⟩ := List.cons_eq_cons.mp h
      by_cases hf : fo s v = true
      · by_cases hc : closed (so s) = true
        · simp only [fanOutKeep, if_pos hf, if_pos hc]
          rw [fanOutKeep_absent closed v fo so i rest hrest, if_pos ⟨hf, hc⟩]
        · simp only [fanOutKeep, if_pos hf, if_neg hc, List.filter_cons,
            if_pos hs]
          rw [fanOutKeep_absent closed v fo so i rest hrest,
            if_neg (fun hx => hc hx.2)]
      · simp only [fanOutKeep, if_neg hf, List.filter_cons, if_pos hs]
        rw [fanOutKeep_absent closed v fo so i rest hrest,
          if_neg (fun hx => hf hx.1)]
    · rw [if_neg hs] at h
      by_cases hf : fo s v = true
      · by_cases hc : closed (so s) = true
        · simp only [fanOutKeep, if_pos hf, if_pos hc]
          exact ih h
        · simp only [fanOutKeep, if_pos hf, if_neg hc, List.filter_cons,
            if_neg hs]
          exact ih h
      · simp only [fanOutKeep, if_neg hf, List.filter_cons, if_neg hs]
        exact ih h

theorem fanOutSends_single {σ : Type} (closed : Nat → Bool) (v : T)
    (fo : σ → T → Bool) (so : σ → Nat) (i : Nat) (s₀ : σ) (subs : List σ)
    (h : subs.filter (fun s => so s == i) = [s₀]) :
    deliveriesTo i (fanOutSends closed v fo so subs) =
      if fo s₀ v = true ∧ closed (so s₀) = false then [v] else [] := by
  induction subs with
  | nil => exact absurd h (by simp)
  | cons s rest ih =>
    rw [List.filter_cons] at h
    by_cases hs : (so s == i) = true
    · rw [if_pos hs] at h
      obtain ⟨rfl, hrest⟩ := List.cons_eq_cons.mp h
      have habs := fanOutSends_absent closed v fo so i rest hrest
      by_cases hf : fo s v = true
      · by_cases hc : closed (so s) = true
        · have hcon : ¬(fo s v = true ∧ closed (so s) = false) := fun hx => by
            rw [hx.2] at hc
            exact absurd hc (by simp)
          simp only [fanOutSends, if_pos hf, if_pos hc]
          rw [habs, if_neg hcon]
        · simp only [fanOutSends, if_pos hf, if_neg hc, deliveriesTo_cons]
          rw [habs]
          simp only [Bool.not_eq_true] at hc
          simp [hs, hf, hc]
      · simp only [fanOutSends, if_neg hf]
        rw [habs, if_neg (fun hx => hf hx.1)]
    · rw [if_neg hs] at h
      by_cases hf : fo s v = true
      · by_cases hc : closed (so s) = true
        · simp only [fanOutSends, if_pos hf, if_pos hc]
          exact ih h
        · simp only [fanOutSends, if_pos hf, if_neg hc, deliveriesTo_cons]
          rw [ih h]
          simp only [Bool.not_eq_true] at hs
          simp [hs]
      · simp only [fanOutSends, if_neg hf]
        exact ih h

theorem afterEvict_noSubFor (st : DispState T) (inp : CycleInput T) (i : Nat)
    (hst : noSubFor i st) (ha : arrivalsFreeOf i inp) :
    noSubFor i (afterEvict st inp) := by
  obtain ⟨h1, h2⟩ := hst
  obtain ⟨a1, a2⟩ := ha
  constructor
  · simp [afterEvict, drainArrivals, List.filter_append, h1, a1]
  · simp [afterEvict, drainArrivals, evictExpired_filter_sender,
      List.filter_append, h2, a2]

theorem afterEvict_ntOnly (st : DispState T) (inp : CycleInput T) (i : Nat)
    (P : T → Bool) (hst : ntOnly i P st) (ha : arrivalsFreeOf i inp) :
    ntOnly i P (afterEvict st inp) := by
  obtain ⟨h1, h2⟩ := hst
  obtain ⟨a1, a2⟩ := ha
  constructor
  · simp [afterEvict, drainArrivals, List.filter_append, h1, a1]
  · simp [afterEvict, drainArrivals, evictExpired_filter_sender,
      List.filter_append, h2, a2]

theorem afterEvict_tOnly (st : DispState T) (inp : CycleInput T) (i d : Nat)
    (P : T → Bool) (hst : tOnly i d P st) (ha : arrivalsFreeOf i inp)
    (hcur : inp.current ≤ d) :
    tOnly i d P (afterEvict st inp) := by
  obtain ⟨h1, h2⟩ := hst
  obtain ⟨a1, a2⟩ := ha
  constructor
  · show (evictExpired inp.current (st.with_timeouts ++ inp.tArrivals)).filter
        (fun s => s.sender == i) = [⟨d, P, i⟩]
    rw [evictExpired_filter_sender, List.filter_append, h1, a2]
    simp [List.filter_cons, hcur]
  · show (st.without_timeouts ++ inp.ntArrivals).filter
        (fun s => s.sender == i) = []
    rw [List.filter_append, h2, a1]
    rfl

theorem afterEvict_tEvicted (st : DispState T) (inp : CycleInput T) (i d : Nat)
    (P : T → Bool) (hst : tOnly i d P st) (ha : arrivalsFreeOf i inp)
    (hcur : d < inp.current) :
    noSubFor i (afterEvict st inp) := by
  obtain ⟨h1, h2⟩ := hst
  obtain ⟨a1, a2⟩ := ha
  constructor
  · show (st.without_timeouts ++ inp.ntArrivals).filter
        (fun s => s.sender == i) = []
    rw [List.filter_append, h2, a1]
    rfl
  · show (evictExpired inp.current (st.with_timeouts ++ inp.tArrivals)).filter
        (fun s => s.sender == i) = []
    rw [evictExpired_filter_sender, List.filter_append, h1, a2]
    have hn : ¬(inp.current ≤ d) := by omega
    simp [List.filter_cons, hn]

theorem fanOutPhase_delivered (st : DispState T) (inp : CycleInput T) (v : T) :
    (fanOutPhase st inp v).1.delivered =
      fanOutSends inp.receiverClosed v Sub.filter Sub.sender
          st.without_timeouts ++
        fanOutSends inp.receiverClosed v TimedSub.filter TimedSub.sender
          st.with_timeouts := rfl

theorem fanOutPhase_consumed (st : DispState T) (inp : CycleInput T) (v : T) :
    (fanOutPhase st inp v).1.consumed = some v := rfl

theorem fanOutPhase_forwarded (st : DispState T) (inp : CycleInput T) (v : T) :
    (fanOutPhase st inp v).1.forwarded =
      (forwardStep st.forward_s inp.forwardClosed v).2 := rfl

theorem fanOutPhase_state (st : DispState T) (inp : CycleInput T) (v : T) :
    (fanOutPhase st inp v).2 =
      ⟨fanOutKeep inp.receiverClosed v Sub.filter Sub.sender
          st.without_timeouts,
        fanOutKeep inp.receiverClosed v TimedSub.filter TimedSub.sender
          st.with_timeouts,
        (forwardStep st.forward_s inp.forwardClosed v).1,
        st.no_more_subscribers⟩ := rfl

theorem cycle_absent_after (st : DispState T) (inp : CycleInput T) (i : Nat)
    (h2 : noSubFor i (afterEvict st inp)) :
    deliveriesTo i (cycle st inp).1.delivered = [] ∧
      noSubFor i (cycle st inp).2 := by
  obtain ⟨hw, ht⟩ := h2
  cases hse : inp.sourceEvent with
  | disconnected => rw [cycle_disconnected st inp hse]; exact ⟨rfl, hw, ht⟩
  | empty => rw [cycle_empty st inp hse]; exact ⟨rfl, hw, ht⟩
  | ok v =>
      rw [cycle_ok st inp v hse]
      refine ⟨?_, ?_, ?_⟩
      · rw [fanOutPhase_delivered, deliveriesTo_append,
          fanOutSends_absent _ v _ _ i _ hw,
          fanOutSends_absent _ v _ _ i _ ht]
        rfl
      · show (fanOutKeep inp.receiverClosed v Sub.filter Sub.sender
            (afterEvict st inp).without_timeouts).filter
              (fun s => s.sender == i) = []
        exact fanOutKeep_absent _ v _ _ i _ hw
      · show (fanOutKeep inp.receiverClosed v TimedSub.filter TimedSub.sender
            (afterEvict st inp).with_timeouts).filter
              (fun s => s.sender == i) = []
        exact fanOutKeep_absent _ v _ _ i _ ht

theorem cycle_absent (st : DispState T) (inp : CycleInput T) (i : Nat)
    (hst : noSubFor i st) (ha : arrivalsFreeOf i inp) :
    deliveriesTo i (cycle st inp).1.delivered = [] ∧
      noSubFor i (cycle st inp).2 :=
  cycle_absent_after st inp i (afterEvict_noSubFor st inp i hst ha)

theorem cycle_tEvict (st : DispState T) (inp : CycleInput T) (i d : Nat)
    (P : T → Bool) (hst : tOnly i d P st) (ha : arrivalsFreeOf i inp)
    (hcur : d < inp.current) :
    deliveriesTo i (cycle st inp).1.delivered = [] ∧
      noSubFor i (cycle st inp).2 :=
  cycle_absent_after st inp i (afterEvict_tEvicted st inp i d P hst ha hcur)

theorem cycle_closed_noDeliver (st : DispState T) (inp : CycleInput T)
    (i : Nat) (hcl : inp.receiverClosed i = true) :
    deliveriesTo i (cycle st inp).1.delivered = [] := by
  cases hse : inp.sourceEvent with
  | disconnected => rw [cycle_disconnected st inp hse]; rfl
  | empty => rw [cycle_empty st inp hse]; rfl
  | ok v =>
      rw [cycle_ok st inp v hse, fanOutPhase_delivered, deliveriesTo_append,
        fanOutSends_closed _ v Sub.filter Sub.sender i _ hcl,
        fanOutSends_closed _ v TimedSub.filter TimedSub.sender i _ hcl]
      rfl

theorem cycle_ntOnly (st : DispState T) (inp : CycleInput T) (i : Nat)
    (P : T → Bool) (hst : ntOnly i P st) (ha : arrivalsFreeOf i inp)
    (hcl : inp.receiverClosed i = false) :
    deliveriesTo i (cycle st inp).1.delivered =
      ((cycle st inp).1.consumed.toList).filter P ∧
    ntOnly i P (cycle st inp).2 := by
  obtain ⟨hw, ht⟩ := afterEvict_ntOnly st inp i P hst ha
  cases hse : inp.sourceEvent with
  | disconnected => rw [cycle_disconnected st inp hse]; exact ⟨rfl, hw, ht⟩
  | empty => rw [cycle_empty st inp hse]; exact ⟨rfl, hw, ht⟩
  | ok v =>
      rw [cycle_ok st inp v hse]
      refine ⟨?_, ?_, ?_⟩
      · rw [fanOutPhase_delivered, deliveriesTo_append,
          fanOutSends_single _ v _ _ i _ _ hw,
          fanOutSends_absent _ v _ _ i _ ht, fanOutPhase_consumed]
        by_cases hp : P v = true
        · simp [hp, hcl]
        · simp [hp, hcl]
      · show (fanOutKeep inp.receiverClosed v Sub.filter Sub.sender
            (afterEvict st inp).without_timeouts).filter
              (fun s => s.sender == i) = [⟨P, i⟩]
        rw [fanOutKeep_single _ v _ _ i _ _ hw]
        simp [hcl]
      · show (fanOutKeep inp.receiverClosed v TimedSub.filter TimedSub.sender
            (afterEvict st inp).with_timeouts).filter
              (fun s => s.sender == i) = []
        exact fanOutKeep_absent _ v _ _ i _ ht

theorem cycle_tOnly (st : DispState T) (inp : CycleInput T) (i d : Nat)
    (P : T → Bool) (hst : tOnly i d P st) (ha : arrivalsFreeOf i inp)
    (hcl : inp.receiverClosed i = false) (hcur : inp.current ≤ d) :
    deliveriesTo i (cycle st inp).1.delivered =
      ((cycle st inp).1.consumed.toList).filter P ∧
    tOnly i d P (cycle st inp).2 := by
  obtain ⟨ht, hw⟩ := afterEvict_tOnly st inp i d P hst ha hcur
  cases hse : inp.sourceEvent with
  | disconnected => rw [cycle_disconnected st inp hse]; exact ⟨rfl, ht, hw⟩
  | empty => rw [cycle_empty st inp hse]; exact ⟨rfl, ht, hw⟩
  | ok v =>
      rw [cycle_ok st inp v hse]
      refine ⟨?_, ?_, ?_⟩
      · rw [fanOutPhase_delivered, deliveriesTo_append,
          fanOutSends_absent _ v _ _ i _ hw,
          fanOutSends_single _ v _ _ i _ _ ht, fanOutPhase_consumed]
        by_cases hp : P v = true
        · simp [hp, hcl]
        · simp [hp, hcl]
      · show (fanOutKeep inp.receiverClosed v TimedSub.filter TimedSub.sender
            (afterEvict st inp).with_timeouts).filter
              (fun s => s.sender == i) = [⟨d, P, i⟩]
        rw [fanOutKeep_single _ v _ _ i _ _ ht]
        simp [hcl]
      · show (fanOutKeep inp.receiverClosed v Sub.filter Sub.sender
            (afterEvict st inp).without_timeouts).filter
              (fun s => s.sender == i) = []
        exact fanOutKeep_absent _ v _ _ i _ hw

theorem cycle_tOnly_nomatch (st : DispState T) (inp : CycleInput T) (i d : Nat)
    (P : T → Bool) (hst : tOnly i d P st) (ha : arrivalsFreeOf i inp)
    (hcur : inp.current ≤ d) (hnm : matchesEvent P inp.sourceEvent = false) :
    deliveriesTo i (cycle st inp).1.delivered = [] ∧
    tOnly i d P (cycle st inp).2 := by
  obtain ⟨ht, hw⟩ := afterEvict_tOnly st inp i d P hst ha hcur
  cases hse : inp.sourceEvent with
  | disconnected => rw [cycle_disconnected st inp hse]; exact ⟨rfl, ht, hw⟩
  | empty => rw [cycle_empty st inp hse]; exact ⟨rfl, ht, hw⟩
  | ok v =>
      rw [hse] at hnm
      have hp : P v = false := by simpa [matchesEvent] using hnm
      rw [cycle_ok st inp v hse]
      refine ⟨?_, ?_, ?_⟩
      · rw [fanOutPhase_delivered, deliveriesTo_append,
          fanOutSends_absent _ v _ _ i _ hw,
          fanOutSends_single _ v _ _ i _ _ ht]
        simp [hp]
      · show (fanOutKeep inp.receiverClosed v TimedSub.filter TimedSub.sender
            (afterEvict st inp).with_timeouts).filter
              (fun s => s.sender == i) = [⟨d, P, i⟩]
        rw [fanOutKeep_single _ v _ _ i _ _ ht]
        simp [hp]
      · show (fanOutKeep inp.receiverClosed v Sub.filter Sub.sender
            (afterEvict st inp).without_timeouts).filter
              (fun s => s.sender == i) = []
        exact fanOutKeep_absent _ v _ _ i _ hw

theorem run_cons (st : DispState T) (inp : CycleInput T)
    (rest : List (CycleInput T)) :
    run st (inp :: rest) =
      if (cycle st inp).1.terminated then [(cycle st inp).1]
      else (cycle st inp).1 :: run (cycle st inp).2 rest := rfl

theorem deliveredTo_cons (i : Nat) (o : CycleOutput T)
    (l : List (CycleOutput T)) :
    deliveredTo i (o :: l) = deliveriesTo i o.delivered ++ deliveredTo i l := rfl

theorem consumedOf_cons (o : CycleOutput T) (l : List (CycleOutput T)) :
    consumedOf (o :: l) = o.consumed.toList ++ consumedOf l := rfl

theorem forwardedOf_cons (o : CycleOutput T) (l : List (CycleOutput T)) :
    forwardedOf (o :: l) = o.forwarded.toList ++ forwardedOf l := rfl

theorem run_absent (i : Nat) (st : DispState T) (ins : List (CycleInput T))
    (hst : noSubFor i st) (ha : ∀ inp ∈ ins, arrivalsFreeOf i inp) :
    deliveredTo i (run st ins) = [] := by
  induction ins generalizing st with
  | nil => rfl
  | cons inp rest ih =>
    obtain ⟨hd, hst2⟩ := cycle_absent st inp i hst (ha inp (by simp))
    rw [run_cons]
    by_cases hterm : (cycle st inp).1.terminated = true
    · rw [if_pos hterm, deliveredTo_cons, hd]
      rfl
    · rw [if_neg hterm, deliveredTo_cons, hd,
        ih (cycle st inp).2 hst2 (fun x hx => ha x (List.mem_cons_of_mem _ hx))]
      rfl

theorem run_closed (i : Nat) (st : DispState T) (ins : List (CycleInput T))
    (hcl : ∀ inp ∈ ins, inp.receiverClosed i = true) :
    deliveredTo i (run st ins) = [] := by
  induction ins generalizing st with
  | nil => rfl
  | cons inp rest ih =>
    have hd := cycle_closed_noDeliver st inp i (hcl inp (by simp))
    rw [run_cons]
    by_cases hterm : (cycle st inp).1.terminated = true
    · rw [if_pos hterm, deliveredTo_cons, hd]
      rfl
    · rw [if_neg hterm, deliveredTo_cons, hd,
        ih (cycle st inp).2 (fun x hx => hcl x (List.mem_cons_of_mem _ hx))]
      rfl

theorem run_ntOnly_closedFrom (i : Nat) (P : T → Bool) (k : Nat)
    (st : DispState T) (ins : List (CycleInput T))
    (hst : ntOnly i P st)
    (ha : ∀ inp ∈ ins, arrivalsFreeOf i inp)
    (hcl : ∀ (j : Nat) (hj : j < ins.length),
      ((ins.get ⟨j, hj⟩).receiverClosed i = true ↔ k ≤ j)) :
    deliveredTo i (run st ins) =
      (consumedOf ((run st ins).take k)).filter P := by
  induction ins generalizing st k with
  | nil => simp [run, deliveredTo, consumedOf]
  | cons inp rest ih =>
    cases k with
    | zero =>
        have hclosed : ∀ x ∈ inp :: rest, x.receiverClosed i = true := by
          intro x hx
          obtain ⟨⟨j, hj⟩, rfl⟩ := List.mem_iff_get.mp hx
          exact (hcl j hj).mpr (Nat.zero_le j)
        rw [run_closed i st (inp :: rest) hclosed]
        simp [consumedOf]
    | succ k2 =>
        have h0 : inp.receiverClosed i = false := by
          cases hb : inp.receiverClosed i
          · rfl
          · have h : inp.receiverClosed i = true ↔ k2 + 1 ≤ 0 := hcl 0 (by simp)
            exact absurd (h.mp hb) (by omega)
        obtain ⟨hd, hst2⟩ := cycle_ntOnly st inp i P hst (ha inp (by simp)) h0
        rw [run_cons]
        by_cases hterm : (cycle st inp).1.terminated = true
        · rw [if_pos hterm, deliveredTo_cons, hd]
          simp [deliveredTo, consumedOf, List.take_succ_cons]
        · rw [if_neg hterm, deliveredTo_cons, hd]
          have harest : ∀ x ∈ rest, arrivalsFreeOf i x :=
            fun x hx => ha x (List.mem_cons_of_mem _ hx)
          have hclrest : ∀ (j : Nat) (hj : j < rest.length),
              ((rest.get ⟨j, hj⟩).receiverClosed i = true ↔ k2 ≤ j) := by
            intro j hj
            simpa [Nat.add_le_add_iff_right] using
              hcl (j + 1) (Nat.succ_lt_succ hj)
          rw [ih k2 (cycle st inp).2 hst2 harest hclrest, List.take_succ_cons,
            consumedOf_cons, List.filter_append]

theorem run_tOnly_closedFrom (i d : Nat) (P : T → Bool) (k e : Nat)
    (st : DispState T) (ins : List (CycleInput T))
    (hst : tOnly i d P st)
    (ha : ∀ inp ∈ ins, arrivalsFreeOf i inp)
    (hcl : ∀ (j : Nat) (hj : j < ins.length),
      ((ins.get ⟨j, hj⟩).receiverClosed i = true ↔ k ≤ j))
    (hcur : ∀ (j : Nat) (hj : j < ins.length),
      (d < (ins.get ⟨j, hj⟩).current ↔ e ≤ j)) :
    deliveredTo i (run st ins) =
      (consumedOf ((run st ins).take (min k e))).filter P := by
  induction ins generalizing st k e with
  | nil => simp [run, deliveredTo, consumedOf]
  | cons inp rest ih =>
    cases e with
    | zero =>
        have hc0 : d < inp.current := by
          have h : d < inp.current ↔ 0 ≤ 0 := hcur 0 (by simp)
          exact h.mpr (by omega)
        obtain ⟨hd, hst2⟩ := cycle_tEvict st inp i d P hst (ha inp (by simp)) hc0
        rw [run_cons]
        by_cases hterm : (cycle st inp).1.terminated = true
        · rw [if_pos hterm, deliveredTo_cons, hd]
          simp [deliveredTo, consumedOf]
        · rw [if_neg hterm, deliveredTo_cons, hd,
            run_absent i (cycle st inp).2 rest hst2
              (fun x hx => ha x (List.mem_cons_of_mem _ hx))]
          simp [consumedOf]
    | succ e2 =>
        have hcur0 : ¬ d < inp.current := by
          have h : d < inp.current ↔ e2 + 1 ≤ 0 := hcur 0 (by simp)
          intro hx
          exact absurd (h.mp hx) (by omega)
        cases k with
        | zero =>
            have hclosed : ∀ x ∈ inp :: rest, x.receiverClosed i = true := by
              intro x hx
              obtain ⟨⟨j, hj⟩, rfl⟩ := List.mem_iff_get.mp hx
              exact (hcl j hj).mpr (Nat.zero_le j)
            rw [run_closed i st (inp :: rest) hclosed]
            simp [consumedOf]
        | succ k2 =>
            have h0 : inp.receiverClosed i = false := by
              cases hb : inp.receiverClosed i
              · rfl
              · have h : inp.receiverClosed i = true ↔ k2 + 1 ≤ 0 :=
                  hcl 0 (by simp)
                exact absurd (h.mp hb) (by omega)
            have hcur0' : inp.current ≤ d := by omega
            obtain ⟨hd, hst2⟩ :=
              cycle_tOnly st inp i d P hst (ha inp (by simp)) h0 hcur0'
            rw [run_cons]
            by_cases hterm : (cycle st inp).1.terminated = true
            · rw [if_pos hterm, deliveredTo_cons, hd, Nat.succ_min_succ]
              simp [deliveredTo, consumedOf, List.take_succ_cons]
            · rw [if_neg hterm, deliveredTo_cons, hd]
              have harest : ∀ x ∈ rest, arrivalsFreeOf i x :=
                fun x hx => ha x (List.mem_cons_of_mem _ hx)
              have hclrest : ∀ (j : Nat) (hj : j < rest.length),
                  ((rest.get ⟨j, hj⟩).receiverClosed i = true ↔ k2 ≤ j) := by
                intro j hj
                simpa [Nat.add_le_add_iff_right] using
                  hcl (j + 1) (Nat.succ_lt_succ hj)
              have hcurrest : ∀ (j : Nat) (hj : j < rest.length),
                  (d < (rest.get ⟨j, hj⟩).current ↔ e2 ≤ j) := by
                intro j hj
                simpa [Nat.add_le_add_iff_right] using
                  hcur (j + 1) (Nat.succ_lt_succ hj)
              rw [ih k2 e2 (cycle st inp).2 hst2 harest hclrest hcurrest,
                Nat.succ_min_succ, List.take_succ_cons, consumedOf_cons,
                List.filter_append]

theorem cycle_forwardClosed_none (st : DispState T) (inp : CycleInput T)
    (hfc : inp.forwardClosed = true) :
    (cycle st inp).1.forwarded = none := by
  cases hse : inp.sourceEvent with
  | disconnected => rw [cycle_disconnected st inp hse]
  | empty => rw [cycle_empty st inp hse]
  | ok v =>
      rw [cycle_ok st inp v hse, fanOutPhase_forwarded, hfc]
      cases hb : (afterEvict st inp).forward_s <;> simp [forwardStep, hb]

theorem run_forwardClosedAll (st : DispState T) (ins : List (CycleInput T))
    (hfc : ∀ inp ∈ ins, inp.forwardClosed = true) :
    forwardedOf (run st ins) = [] := by
  induction ins generalizing st with
  | nil => rfl
  | cons inp rest ih =>
    have hf := cycle_forwardClosed_none st inp (hfc inp (by simp))
    rw [run_cons]
    by_cases hterm : (cycle st inp).1.terminated = true
    · rw [if_pos hterm, forwardedOf_cons, hf]
      rfl
    · rw [if_neg hterm, forwardedOf_cons, hf,
        ih (cycle st inp).2 (fun x hx => hfc x (List.mem_cons_of_mem _ hx))]
      rfl

theorem cycle_forward_alive (st : DispState T) (inp : CycleInput T)
    (hf : st.forward_s = true) (hfc : inp.forwardClosed = false) :
    (cycle st inp).1.forwarded = (cycle st inp).1.consumed ∧
    (cycle st inp).2.forward_s = true := by
  cases hse : inp.sourceEvent with
  | disconnected => rw [cycle_disconnected st inp hse]; exact ⟨rfl, hf⟩
  | empty => rw [cycle_empty st inp hse]; exact ⟨rfl, hf⟩
  | ok v =>
      rw [cycle_ok st inp v hse]
      constructor
      · rw [fanOutPhase_forwarded, fanOutPhase_consumed, afterEvict_forward,
          hf, hfc]
        rfl
      · rw [fanOutPhase_state]
        show (forwardStep (afterEvict st inp).forward_s inp.forwardClosed v).1 = true
        rw [afterEvict_forward, hf, hfc]
        rfl

/-- C1: for a subscriber with predicate `P` on channel `i` — registered via
`request` (no-timeout registry) or `request_timeout` (timeout registry, with
deadline `d`) — the items delivered to `i` over any run of the dispatcher are
exactly the `P`-filtered subsequence, in source order, of the items the
dispatcher consumed while the subscription was live: up to removal at cycle
`k`, the cycle from which the consumer side is dropped (sends fail), and, for
the timed case, also capped at cycle `e`, the cycle from which the sampled
clock strictly exceeds `d` (deadline eviction). -/
theorem C1_subscriber_gets_filtered_subsequence (i : Nat) (P : T → Bool)
    (k : Nat) (st : DispState T) (ins : List (CycleInput T))
    (ha : ∀ inp ∈ ins, arrivalsFreeOf i inp)
    (hcl : ∀ (j : Nat) (hj : j < ins.length),
      ((ins.get ⟨j, hj⟩).receiverClosed i = true ↔ k ≤ j)) :
    (ntOnly i P st →
      deliveredTo i (run st ins) =
        (consumedOf ((run st ins).take k)).filter P) ∧
    (∀ d e : Nat, tOnly i d P st →
      (∀ (j : Nat) (hj : j < ins.length),
        (d < (ins.get ⟨j, hj⟩).current ↔ e ≤ j)) →
      deliveredTo i (run st ins) =
        (consumedOf ((run st ins).take (min k e))).filter P) :=
  ⟨fun hst => run_ntOnly_closedFrom i P k st ins hst ha hcl,
   fun d e hst hcur => run_tOnly_closedFrom i d P k e st ins hst ha hcl hcur⟩

/-- Witness for C1 on the spec's concrete scenario: the source emits 1..5 and
subscriber 1 holds predicate `is_even` from the start and never drops its
receiver (`k = 5`); it receives exactly the even items, namely [2, 4]. -/
theorem C1_subscriber_gets_filtered_subsequence_witness :
    (deliveredTo 1 (run c1State c1Inputs) =
      (consumedOf ((run c1State c1Inputs).take 5)).filter evenFilter) ∧
    deliveredTo 1 (run c1State c1Inputs) = [2, 4] :=
  ⟨(C1_subscriber_gets_filtered_subsequence 1 evenFilter 5 c1State c1Inputs
      (by intro inp h; fin_cases h <;> exact ⟨rfl, rfl⟩)
      (by decide)).1 ⟨rfl, rfl⟩,
   by decide⟩

/-- C6: a timed subscription (id `i`, deadline `d`, predicate `P`) whose
deadline passes (cycle `ke` samples a clock strictly past `d`) before any
`P`-matching item has been pulled is removed by the eviction pass — its
delivery channel is simply dropped: no expiry value of any kind exists in
this code — and it is never delivered any item afterwards, even though
later source items may match `P`. -/
theorem C6_expired_subscription_never_delivered (i d ke : Nat) (P : T → Bool)
    (st : DispState T) (ins : List (CycleInput T))
    (hst : tOnly i d P st)
    (ha : ∀ inp ∈ ins, arrivalsFreeOf i inp)
    (hke : ke < ins.length)
    (hcur : d < (ins.get ⟨ke, hke⟩).current)
    (hnm : ∀ (j : Nat) (_hjk : j < ke) (hj : j < ins.length),
      matchesEvent P (ins.get ⟨j, hj⟩).sourceEvent = false) :
    deliveredTo i (run st ins) = [] := by
  induction ins generalizing st ke with
  | nil => rfl
  | cons inp rest ih =>
    by_cases hc0 : d < inp.current
    · obtain ⟨hd, hst2⟩ := cycle_tEvict st inp i d P hst (ha inp (by simp)) hc0
      rw [run_cons]
      by_cases hterm : (cycle st inp).1.terminated = true
      · rw [if_pos hterm, deliveredTo_cons, hd]
        rfl
      · rw [if_neg hterm, deliveredTo_cons, hd,
          run_absent i (cycle st inp).2 rest hst2
            (fun x hx => ha x (List.mem_cons_of_mem _ hx))]
        rfl
    · cases ke with
      | zero => exact absurd hcur hc0
      | succ ke2 =>
          have hm0 : matchesEvent P inp.sourceEvent = false :=
            hnm 0 (by omega) (by simp)
          obtain ⟨hd, hst2⟩ := cycle_tOnly_nomatch st inp i d P hst
            (ha inp (by simp)) (by omega) hm0
          rw [run_cons]
          by_cases hterm : (cycle st inp).1.terminated = true
          · rw [if_pos hterm, deliveredTo_cons, hd]
            rfl
          · rw [if_neg hterm, deliveredTo_cons, hd]
            have hke2 : ke2 < rest.length := Nat.lt_of_succ_lt_succ hke
            rw [ih ke2 (cycle st inp).2 hst2
              (fun x hx => ha x (List.mem_cons_of_mem _ hx)) hke2 hcur
              (fun j _hjk hj => hnm (j + 1) (by omega) (Nat.succ_lt_succ hj))]
            rfl

/-- Witness for C6: subscriber 2 (deadline 5, `is_even`) sees item 1 (no
match), then the clock reaches 6 on the cycle pulling item 2 — a match that
arrives only after the deadline passed — and receives nothing, ever. -/
theorem C6_expired_subscription_never_delivered_witness :
    deliveredTo 2 (run c6State c6Inputs) = [] ∧ evenFilter 2 = true :=
  ⟨C6_expired_subscription_never_delivered 2 5 1 evenFilter c6State c6Inputs
      ⟨rfl, rfl⟩ (by intro inp h; fin_cases h <;> exact ⟨rfl, rfl⟩)
      (by decide) (by decide) (by decide),
   by decide⟩

/-- C7: a subscriber on channel `i` whose registration is drained only at
cycle `k` or later (it is absent from the registries at the start and from
the arrivals of the first `k` cycles) receives nothing during the first `k`
cycles of the run: items fanned out before its registration is drained are
never delivered to it, and no items are buffered for future subscribers. -/
theorem C7_late_subscriber_misses_earlier_items (i k : Nat)
    (st : DispState T) (ins : List (CycleInput T))
    (hst : noSubFor i st)
    (ha : ∀ (j : Nat) (_hjk : j < k) (hj : j < ins.length),
      arrivalsFreeOf i (ins.get ⟨j, hj⟩)) :
    deliveredTo i ((run st ins).take k) = [] := by
  induction ins generalizing st k with
  | nil => simp [run, deliveredTo]
  | cons inp rest ih =>
    cases k with
    | zero => rfl
    | succ k2 =>
        have ha0 : arrivalsFreeOf i inp := ha 0 (by omega) (by simp)
        obtain ⟨hd, hst2⟩ := cycle_absent st inp i hst ha0
        rw [run_cons]
        by_cases hterm : (cycle st inp).1.terminated = true
        · rw [if_pos hterm, List.take_succ_cons, deliveredTo_cons, hd,
            List.take_nil]
          rfl
        · rw [if_neg hterm, List.take_succ_cons, deliveredTo_cons, hd,
            ih k2 (cycle st inp).2 hst2
              (fun j _hjk hj => ha (j + 1) (by omega) (Nat.succ_lt_succ hj))]
          rfl

/-- Witness for C7: subscriber 1 (accept-all) arrives only on the third
cycle (`k = 2`), after items 1 and 2 were fanned out; the first two cycles
deliver nothing to it (it then receives items 3 and 4). -/
theorem C7_late_subscriber_misses_earlier_items_witness :
    deliveredTo 1 ((run (freshState Nat) c7Inputs).take 2) = [] ∧
    deliveredTo 1 (run (freshState Nat) c7Inputs) = [3, 4] :=
  ⟨C7_late_subscriber_misses_earlier_items 1 2 (freshState Nat) c7Inputs
      ⟨rfl, rfl⟩
      (by intro j hjk hj; interval_cases j <;> exact ⟨rfl, rfl⟩),
   by decide⟩

/-- C8: the Receiver handed back by `Requester::new` (the forward channel)
receives every item the dispatcher consumes from the source, in source order
and regardless of which predicates matched, up to the first failed forward
send — the first item consumed from cycle `m` on, once the forward receiver
is dropped — after which the capability `forward_s` is `None` forever and
nothing is ever forwarded again. -/
theorem C8_forward_receives_every_consumed_item (st : DispState T)
    (ins : List (CycleInput T)) (m : Nat)
    (hf : st.forward_s = true)
    (hm : ∀ (j : Nat) (hj : j < ins.length),
      ((ins.get ⟨j, hj⟩).forwardClosed = true ↔ m ≤ j)) :
    forwardedOf (run st ins) = consumedOf ((run st ins).take m) := by
  induction ins generalizing st m with
  | nil => simp [run, forwardedOf, consumedOf]
  | cons inp rest ih =>
    cases m with
    | zero =>
        have hall : ∀ x ∈ inp :: rest, x.forwardClosed = true := by
          intro x hx
          obtain ⟨⟨j, hj⟩, rfl⟩ := List.mem_iff_get.mp hx
          exact (hm j hj).mpr (Nat.zero_le j)
        rw [run_forwardClosedAll st (inp :: rest) hall]
        simp [consumedOf]
    | succ m2 =>
        have h0 : inp.forwardClosed = false := by
          cases hb : inp.forwardClosed
          · rfl
          · have h : inp.forwardClosed = true ↔ m2 + 1 ≤ 0 := hm 0 (by simp)
            exact absurd (h.mp hb) (by omega)
        obtain ⟨hfw, hfs⟩ := cycle_forward_alive st inp hf h0
        rw [run_cons]
        by_cases hterm : (cycle st inp).1.terminated = true
        · rw [if_pos hterm, forwardedOf_cons, hfw, List.take_succ_cons,
            consumedOf_cons, List.take_nil]
          rfl
        · rw [if_neg hterm, forwardedOf_cons, hfw]
          have hmrest : ∀ (j : Nat) (hj : j < rest.length),
              ((rest.get ⟨j, hj⟩).forwardClosed = true ↔ m2 ≤ j) := by
            intro j hj
            simpa [Nat.add_le_add_iff_right] using
              hm (j + 1) (Nat.succ_lt_succ hj)
          rw [ih (cycle st inp).2 m2 hfs hmrest, List.take_succ_cons,
            consumedOf_cons]

/-- Witness for C8: items 10, 20 are consumed while the forward receiver is
alive and are forwarded; the receiver is dropped before item 30 (`m = 2`),
which is consumed but not forwarded. -/
theorem C8_forward_receives_every_consumed_item_witness :
    forwardedOf (run (freshState Nat) c8Inputs) =
      consumedOf ((run (freshState Nat) c8Inputs).take 2) ∧
    forwardedOf (run (freshState Nat) c8Inputs) = [10, 20] ∧
    consumedOf (run (freshState Nat) c8Inputs) = [10, 20, 30] :=
  ⟨C8_forward_receives_every_consumed_item (freshState Nat) c8Inputs 2 rfl
      (by decide),
   by decide, by decide⟩

theorem cycle_term_iff_idle (st : DispState T) (inp : CycleInput T)
    (hne : inp.sourceEvent ≠ TryRecv.disconnected) :
    ((cycle st inp).1.terminated = true ↔ idleCond (cycle st inp).2) := by
  cases hse : inp.sourceEvent with
  | disconnected => exact absurd hse hne
  | empty =>
      rw [cycle_empty st inp hse]
      simp only [idleCond, Bool.and_eq_true, List.isEmpty_iff,
        Bool.not_eq_true']
      tauto
  | ok v =>
      rw [cycle_ok st inp v hse, fanOutPhase_state]
      show (_ && _ && _ && _) = true ↔ _
      simp only [idleCond, Bool.and_eq_true, List.isEmpty_iff,
        Bool.not_eq_true']
      tauto

theorem cycle_orphanIdle (α : Type) :
    cycle (orphanIdleState α) (idleDroppedInput α) =
      (⟨[], none, none, false⟩, orphanIdleState α) := rfl

theorem cycle_orphanItem (α : Type) (v : α) :
    cycle (orphanIdleState α) (itemDroppedInput v) =
      (⟨[], some v, none, true⟩, ⟨[], [], false, true⟩) := rfl

/-- C9: when `source.try_recv()` reports `Disconnected`, the loop `return`s
on that very cycle whatever the subscriber state: the run ends with that
cycle's output, which fans out nothing and forwards nothing (later inputs,
including later registrations, are never processed).  Conversely any
termination on a cycle whose source event is not `Disconnected` can only come
from the idle check, i.e. requires `no_more_subscribers` with both registries
empty and the forwarding capability dropped. -/
theorem C9_source_disconnected_terminates (st : DispState T)
    (inp : CycleInput T) (rest : List (CycleInput T)) :
    (inp.sourceEvent = TryRecv.disconnected →
      run st (inp :: rest) = [(cycle st inp).1] ∧
      (cycle st inp).1.terminated = true ∧
      (cycle st inp).1.delivered = [] ∧
      (cycle st inp).1.forwarded = none) ∧
    ((cycle st inp).1.terminated = true →
      inp.sourceEvent ≠ TryRecv.disconnected → idleCond (cycle st inp).2) := by
  constructor
  · intro h
    rw [run_cons, cycle_disconnected st inp h]
    exact ⟨by rw [if_pos rfl], rfl, rfl, rfl⟩
  · intro hterm hne
    exact (cycle_term_iff_idle st inp hne).mp hterm

/-- Witness for C9: with the source disconnected on the first cycle, the run
is exactly that one terminated cycle. -/
theorem C9_source_disconnected_terminates_witness :
    run (freshState Nat) [discInput Nat] =
      [(cycle (freshState Nat) (discInput Nat)).1] ∧
    (cycle (freshState Nat) (discInput Nat)).1.terminated = true :=
  ⟨((C9_source_disconnected_terminates (freshState Nat) (discInput Nat)
      []).1 rfl).1,
   ((C9_source_disconnected_terminates (freshState Nat) (discInput Nat)
      []).1 rfl).2.1⟩

/-- C3 counterexample: with every handle dropped (`no_more_subscribers`
latched), both registries empty, the forward receiver dropped, and the source
open but silent, the dispatcher does NOT terminate: the idle check requires
`forward_s.is_none()`, and `forward_s` only becomes `None` after a forward
send fails, which requires an item.  The cycle leaves the state unchanged, so
the loop spins forever (shown here for five cycles). -/
theorem C3_counterexample :
    (cycle (orphanIdleState Nat) (idleDroppedInput Nat)).1.terminated = false ∧
    (cycle (orphanIdleState Nat) (idleDroppedInput Nat)).2 =
      orphanIdleState Nat ∧
    (run (orphanIdleState Nat)
      (List.replicate 5 (idleDroppedInput Nat))).all
        (fun o => !o.terminated) = true ∧
    (run (orphanIdleState Nat)
      (List.replicate 5 (idleDroppedInput Nat))).length = 5 :=
  ⟨rfl, rfl, rfl, rfl⟩

/-- C3 amended: dropping every handle, every live subscription and the
forward endpoint makes the worker terminate only once it next consumes an
item from the (still open) source: that item's failed forward send drops the
forwarding capability and the idle check then fires at the end of the same
cycle.  The loop exits via the idle check exactly when the latched
`no_more_subscribers` holds, both registries are empty, and `forward_s` is
`None`. -/
theorem C3_amended_idle_termination :
    (∀ (α : Type) (v : α) (n : Nat) (rest : List (CycleInput α)),
      (run (orphanIdleState α)
          (List.replicate n (idleDroppedInput α) ++
            itemDroppedInput v :: rest)).map
        (fun o => o.terminated) = List.replicate n false ++ [true]) ∧
    (∀ (α : Type) (st : DispState α) (inp : CycleInput α),
      inp.sourceEvent ≠ TryRecv.disconnected →
      ((cycle st inp).1.terminated = true ↔ idleCond (cycle st inp).2)) := by
  constructor
  · intro α v n rest
    induction n with
    | zero =>
        rw [List.replicate_zero, List.nil_append, run_cons,
          cycle_orphanItem α v, if_pos rfl]
        simp
    | succ n ih =>
        rw [List.replicate_succ, List.cons_append, run_cons,
          cycle_orphanIdle α, if_neg (by simp)]
        rw [List.map_cons, List.replicate_succ, List.cons_append]
        exact congrArg (List.cons false) ih
  · intro α st inp hne
    exact cycle_term_iff_idle st inp hne

/-- Witness for C3 amended: two silent cycles spin, then the first consumed
item terminates the worker; and the iff instance of the idle-exit condition
on a concrete silent cycle. -/
theorem C3_amended_idle_termination_witness :
    ((run (orphanIdleState Nat)
        (List.replicate 2 (idleDroppedInput Nat) ++
          itemDroppedInput 7 :: [])).map
      (fun o => o.terminated) = List.replicate 2 false ++ [true]) ∧
    ((cycle (orphanIdleState Nat) (idleDroppedInput Nat)).1.terminated =
        true ↔
      idleCond (cycle (orphanIdleState Nat) (idleDroppedInput Nat)).2) :=
  ⟨C3_amended_idle_termination.1 Nat 7 2 [],
   C3_amended_idle_termination.2 Nat (orphanIdleState Nat)
     (idleDroppedInput Nat) (by decide)⟩

/-- C4 counterexample: subscriber 7 registers via `request_timeout(0, ...)`
at time 100 (deadline 100, computed at call time); on a dispatcher cycle that
still samples time 100, the eviction test `deadline >= current` retains it,
and the matching item 42 pulled on that same cycle IS delivered to it —
refuting "closes without ever yielding an item". -/
theorem C4_counterexample :
    deliveredTo 7 (run c4State [sameMsInput]) = [42] := rfl

/-- C4 amended: a `request_timeout(0, ...)` subscriber's deadline equals the
call time `t0` (computed at call time, not when the dispatcher processes the
registration); the subscription is evicted, with its channel silently
dropped, on the first cycle whose sampled time strictly exceeds `t0`, and
when every cycle that could fan an item to it samples a time strictly past
`t0` — in particular when the clock has advanced before the first item — it
never yields an item. -/
theorem C4_amended_zero_timeout (i t0 : Nat) (P : T → Bool)
    (st : DispState T) (inp : CycleInput T) (ins : List (CycleInput T))
    (hlt : t0 < 2 ^ 64)
    (hst : tOnly i (requestTimeoutDeadline t0 0) P st)
    (ha : arrivalsFreeOf i inp) (ha2 : ∀ x ∈ ins, arrivalsFreeOf i x)
    (hcur : t0 < inp.current) :
    requestTimeoutDeadline t0 0 = t0 ∧
    deliveredTo i (run st (inp :: ins)) = [] := by
  have hdl : requestTimeoutDeadline t0 0 = t0 := by
    unfold requestTimeoutDeadline
    rw [Nat.add_zero]
    exact Nat.mod_eq_of_lt hlt
  refine ⟨hdl, ?_⟩
  have hcur' : requestTimeoutDeadline t0 0 < inp.current := by omega
  obtain ⟨hd, hst2⟩ :=
    cycle_tEvict st inp i (requestTimeoutDeadline t0 0) P hst ha hcur'
  rw [run_cons]
  by_cases hterm : (cycle st inp).1.terminated = true
  · rw [if_pos hterm, deliveredTo_cons, hd]
    rfl
  · rw [if_neg hterm, deliveredTo_cons, hd,
      run_absent i (cycle st inp).2 ins hst2 ha2]
    rfl

/-- Witness for C4 amended: the deadline of a 0 ms request at time 100 is
100, and once the dispatcher samples time 101 the subscriber is evicted and
receives nothing even though item 42 matches. -/
theorem C4_amended_zero_timeout_witness :
    requestTimeoutDeadline 100 0 = 100 ∧
    deliveredTo 7 (run c4State [clockedInput 101 42]) = [] :=
  ⟨(C4_amended_zero_timeout 7 100 anyFilter c4State (clockedInput 101 42) []
      (by norm_num) ⟨rfl, rfl⟩ ⟨rfl, rfl⟩ (by simp) (by decide)).1,
   (C4_amended_zero_timeout 7 100 anyFilter c4State (clockedInput 101 42) []
      (by norm_num) ⟨rfl, rfl⟩ ⟨rfl, rfl⟩ (by simp) (by decide)).2⟩
